import Mathlib

/-!
Meowth viewer: input handling, per-frame update and mesh loading.

A shallow embedding of `src/meowth/openglwindow.cpp` (and of the fields that
`src/meowth/camera.hpp` declares), followed by the properties proved about it.

* `float` values are modelled by `F32`: a NaN, the two infinities, a negative
  zero and the finite values (as rationals).  Only the comparisons the source
  performs (`==`, `<`, `>`) are defined; they follow IEEE 754 (NaN compares
  false with everything, `-0 == 0`).
* `OpenGLWindow` collects the member variables that the three embedded member
  functions read or write.
* `std::unordered_map<Vertex, GLuint>` is modelled by an association list that is
  searched by hash code and key equality; for a hash that gives equal keys
  equal codes, which `std::hash` requires, this is what a bucket lookup finds.
* `int` arithmetic wraps to 32 bits (`toInt32`), the conversion of a `size_t` to
  `GLuint` truncates (`toGLuint`), and `std::vector::at` raises `out_of_range`.
* `tinyobj::ObjReader::ParseFromFile`, `std::hash<glm::vec3>`, the `float`
  product and the `Camera` member functions are outside the sources at hand and
  enter as parameters.
-/

namespace Meowth

/-! ## Floating point values -/

/-- A `float`: NaN, plus or minus infinity, negative zero, or a finite value
(the finite binary32 values are rationals; positive zero is `fin 0`). -/
inductive F32 where
  | nan : F32
  | pinf : F32
  | ninf : F32
  | nzero : F32
  | fin (q : ℚ) : F32
  deriving DecidableEq

namespace F32

/-- The numeric value a `float` compares by: nothing for NaN, `Sum.inr true` and
`Sum.inr false` for plus and minus infinity, the rational otherwise (both zeros
give `0`). -/
def key : F32 → Option (ℚ ⊕ Bool)
  | nan => none
  | pinf => some (Sum.inr true)
  | ninf => some (Sum.inr false)
  | nzero => some (Sum.inl 0)
  | fin q => some (Sum.inl q)

/-- The C++ `a == b` on `float`. -/
def feq (a b : F32) : Bool :=
  match a.key, b.key with
  | some x, some y => decide (x = y)
  | _, _ => false

/-- The C++ `a < b` on `float`. -/
def flt (a b : F32) : Bool :=
  match a.key, b.key with
  | some (Sum.inl p), some (Sum.inl q) => decide (p < q)
  | some (Sum.inr false), some (Sum.inl _) => true
  | some (Sum.inr false), some (Sum.inr true) => true
  | some (Sum.inl _), some (Sum.inr true) => true
  | _, _ => false

/-- The C++ `a > b` on `float`. -/
def fgt (a b : F32) : Bool := flt b a

end F32

/-! ## Events -/

/-- The values of `SDL_Event::type` the handler distinguishes. -/
inductive EventType where
  | SDL_KEYDOWN
  | SDL_KEYUP
  | SDL_MOUSEBUTTONDOWN
  | SDL_MOUSEBUTTONUP
  | other (code : Nat)
  deriving DecidableEq

/-- The key codes the handler distinguishes. -/
inductive Keycode where
  | SDLK_UP
  | SDLK_DOWN
  | SDLK_LEFT
  | SDLK_RIGHT
  | SDLK_w
  | SDLK_a
  | SDLK_s
  | SDLK_d
  | SDLK_q
  | SDLK_e
  | SDLK_SPACE
  | other (code : Nat)
  deriving DecidableEq

/-- The mouse buttons the handler distinguishes. -/
inductive Button where
  | SDL_BUTTON_LEFT
  | SDL_BUTTON_RIGHT
  | other (code : Nat)
  deriving DecidableEq

/-- An `SDL_Event` as the handler reads it: `ev.type`, `ev.key.keysym.sym` and
`ev.button.button`.  The handler reads `sym` only under a keyboard type and
`button` only under a mouse-button type. -/
structure SDL_Event where
  type : EventType
  sym : Keycode
  button : Button
  deriving DecidableEq

/-! ## Camera and window state -/

/-- A `glm::vec3`. -/
structure vec3 where
  x : F32
  y : F32
  z : F32
  deriving DecidableEq

/-- A `glm::mat4`, column by column. -/
abbrev mat4 := Fin 4 → Fin 4 → F32

/-- The data members of `Camera` (camera.hpp). -/
structure Camera where
  angulo : F32
  m_eye : vec3
  m_at : vec3
  m_up : vec3
  m_viewMatrix : mat4
  m_projMatrix : mat4

/-- Modelled from the spec: `Vertex` is declared in openglwindow.hpp, which is
not among the sources; the spec describes a vertex as "position only" with
deduplication "on exact position equality". -/
structure Vertex where
  position : vec3
  deriving DecidableEq

/-- The member variables of `OpenGLWindow` that `handleEvent`, `update` and
`loadModelFromFile` read or write.  The class is declared in openglwindow.hpp,
which is not among the sources; the fields have the types their uses in
openglwindow.cpp require (`float` speeds and angle flag, a `Camera`, a vector of
`Vertex`, a vector of `GLuint`). -/
structure OpenGLWindow where
  m_dollySpeed : F32
  m_panSpeed : F32
  m_truckSpeed : F32
  m_angulo : F32
  m_camera : Camera
  m_vertices : List Vertex
  m_indices : List Nat

/-! ## `OpenGLWindow::handleEvent` -/

open EventType Keycode Button

/-- The body of `OpenGLWindow::handleEvent`, one `if` of the source per step. -/
def handleEvent (ev : SDL_Event) (w : OpenGLWindow) : OpenGLWindow :=
  let w :=
    if ev.type = SDL_KEYDOWN then
      let w := if ev.sym = SDLK_UP ∨ ev.sym = SDLK_w then
        { w with m_dollySpeed := F32.fin 1 } else w
      let w := if ev.sym = SDLK_DOWN ∨ ev.sym = SDLK_s then
        { w with m_dollySpeed := F32.fin (-1) } else w
      let w := if ev.sym = SDLK_LEFT ∨ ev.sym = SDLK_a then
        { w with m_panSpeed := F32.fin (-1) } else w
      let w := if ev.sym = SDLK_RIGHT ∨ ev.sym = SDLK_d then
        { w with m_panSpeed := F32.fin 1 } else w
      let w := if ev.sym = SDLK_q then { w with m_truckSpeed := F32.fin (-1) } else w
      let w := if ev.sym = SDLK_e then { w with m_truckSpeed := F32.fin 1 } else w
      let w := if ev.sym = SDLK_SPACE then { w with m_angulo := F32.fin 0 } else w
      w
    else w
  let w :=
    if ev.type = SDL_KEYUP then
      let w := if (ev.sym = SDLK_UP ∨ ev.sym = SDLK_w) ∧
          F32.fgt w.m_dollySpeed (F32.fin 0) = true then
        { w with m_dollySpeed := F32.fin 0 } else w
      let w := if (ev.sym = SDLK_DOWN ∨ ev.sym = SDLK_s) ∧
          F32.flt w.m_dollySpeed (F32.fin 0) = true then
        { w with m_dollySpeed := F32.fin 0 } else w
      let w := if (ev.sym = SDLK_LEFT ∨ ev.sym = SDLK_a) ∧
          F32.flt w.m_panSpeed (F32.fin 0) = true then
        { w with m_panSpeed := F32.fin 0 } else w
      let w := if (ev.sym = SDLK_RIGHT ∨ ev.sym = SDLK_d) ∧
          F32.fgt w.m_panSpeed (F32.fin 0) = true then
        { w with m_panSpeed := F32.fin 0 } else w
      let w := if ev.sym = SDLK_q ∧ F32.flt w.m_truckSpeed (F32.fin 0) = true then
        { w with m_truckSpeed := F32.fin 0 } else w
      let w := if ev.sym = SDLK_e ∧ F32.fgt w.m_truckSpeed (F32.fin 0) = true then
        { w with m_truckSpeed := F32.fin 0 } else w
      w
    else w
  let w :=
    if ev.type = SDL_MOUSEBUTTONDOWN then
      if ev.button = SDL_BUTTON_LEFT then { w with m_angulo := F32.fin 1 } else w
    else w
  let w :=
    if ev.type = SDL_MOUSEBUTTONUP then
      if ev.button = SDL_BUTTON_LEFT then { w with m_angulo := F32.fin (1 / 2) } else w
    else w
  let w :=
    if ev.type = SDL_MOUSEBUTTONDOWN then
      if ev.button = SDL_BUTTON_RIGHT then { w with m_angulo := F32.fin (-1) } else w
    else w
  let w :=
    if ev.type = SDL_MOUSEBUTTONUP then
      if ev.button = SDL_BUTTON_RIGHT then { w with m_angulo := F32.fin (1 / 2) } else w
    else w
  w

/-- The window after the handler has processed the events of `evs` in order. -/
def handleEvents (evs : List SDL_Event) (w : OpenGLWindow) : OpenGLWindow :=
  evs.foldl (fun acc ev => handleEvent ev acc) w

/-- A key is held from its key-down until its next key-up: the state after
`evs`, starting with the key released. -/
def keyHeld (k : Keycode) (evs : List SDL_Event) : Bool :=
  evs.foldl (fun held ev =>
    if ev.type = SDL_KEYDOWN ∧ ev.sym = k then true
    else if ev.type = SDL_KEYUP ∧ ev.sym = k then false
    else held) false

/-- A mouse button is held from its button-down until its next button-up: the
state after `evs`, starting with the button released. -/
def buttonHeld (b : Button) (evs : List SDL_Event) : Bool :=
  evs.foldl (fun held ev =>
    if ev.type = SDL_MOUSEBUTTONDOWN ∧ ev.button = b then true
    else if ev.type = SDL_MOUSEBUTTONUP ∧ ev.button = b then false
    else held) false

/-- The reading of the angle flag as an encoding of the held inputs, for the
window reached from `w` by the events `evs`: `0.5` when none of the left button,
the right button and Space is held, `1` when only the left button is, `-1` when
only the right button is, `0` when only Space is. -/
def angleEncodesHeld (evs : List SDL_Event) (w : OpenGLWindow) : Prop :=
  let a := (handleEvents evs w).m_angulo
  let l := buttonHeld SDL_BUTTON_LEFT evs
  let r := buttonHeld SDL_BUTTON_RIGHT evs
  let sp := keyHeld SDLK_SPACE evs
  (l = false ∧ r = false ∧ sp = false → F32.feq a (F32.fin (1 / 2)) = true) ∧
  (l = true ∧ r = false ∧ sp = false → F32.feq a (F32.fin 1) = true) ∧
  (l = false ∧ r = true ∧ sp = false → F32.feq a (F32.fin (-1)) = true) ∧
  (l = false ∧ r = false ∧ sp = true → F32.feq a (F32.fin 0) = true)

/-- The value an event stores in the angle flag, if it stores one: `0` for a
Space key-down, `1` and `-1` for a left and a right button-down, `0.5` for the
release of either of these two buttons. -/
def angleAssigned (ev : SDL_Event) : Option F32 :=
  match ev.type with
  | SDL_KEYDOWN => if ev.sym = SDLK_SPACE then some (F32.fin 0) else none
  | SDL_MOUSEBUTTONDOWN =>
    match ev.button with
    | SDL_BUTTON_LEFT => some (F32.fin 1)
    | SDL_BUTTON_RIGHT => some (F32.fin (-1))
    | Button.other _ => none
  | SDL_MOUSEBUTTONUP =>
    match ev.button with
    | SDL_BUTTON_LEFT => some (F32.fin (1 / 2))
    | SDL_BUTTON_RIGHT => some (F32.fin (1 / 2))
    | Button.other _ => none
  | _ => none

/-- The value stored by the most recent event of `evs` that stores one, and
`init` when no event of `evs` does. -/
def lastAngleAssigned (init : F32) : List SDL_Event → F32
  | [] => init
  | ev :: evs =>
    match angleAssigned ev with
    | some a => lastAngleAssigned a evs
    | none => lastAngleAssigned init evs

/-- A keyboard event (the mouse fields are not read for it). -/
def keyEvent (type : EventType) (sym : Keycode) : SDL_Event :=
  { type := type, sym := sym, button := Button.other 0 }

/-- A mouse button event (the keyboard fields are not read for it). -/
def mouseEvent (type : EventType) (button : Button) : SDL_Event :=
  { type := type, sym := Keycode.other 0, button := button }

/-- Left button down, right button down, right button up. -/
def overlappingButtons : List SDL_Event :=
  [mouseEvent SDL_MOUSEBUTTONDOWN SDL_BUTTON_LEFT,
   mouseEvent SDL_MOUSEBUTTONDOWN SDL_BUTTON_RIGHT,
   mouseEvent SDL_MOUSEBUTTONUP SDL_BUTTON_RIGHT]

/-- The camera's default position, look-at point and up direction
(camera.hpp), with the angle flag at its idle value and all speeds zero. -/
def idleWindow : OpenGLWindow where
  m_dollySpeed := F32.fin 0
  m_panSpeed := F32.fin 0
  m_truckSpeed := F32.fin 0
  m_angulo := F32.fin (1 / 2)
  m_camera :=
    { angulo := F32.fin (1 / 2)
      m_eye := ⟨F32.fin 0, F32.fin (1 / 2), F32.fin (5 / 2)⟩
      m_at := ⟨F32.fin 0, F32.fin (1 / 2), F32.fin 0⟩
      m_up := ⟨F32.fin 0, F32.fin 1, F32.fin 0⟩
      m_viewMatrix := fun _ _ => F32.fin 0
      m_projMatrix := fun _ _ => F32.fin 0 }
  m_vertices := []
  m_indices := []

/-! ## `OpenGLWindow::update` -/

/-- The body of `OpenGLWindow::update`.  `Camera::dolly`, `Camera::truck` and
`Camera::pan` are defined outside the sources at hand and are parameters, as
is the `float` product `fmul`; `deltaTime` is the value of
`static_cast<float>(getDeltaTime())`. -/
def update (fmul : F32 → F32 → F32) (dolly truck pan : F32 → Camera → Camera)
    (deltaTime : F32) (w : OpenGLWindow) : OpenGLWindow :=
  let w := { w with m_camera := { w.m_camera with angulo := w.m_angulo } }
  let w := { w with m_camera := dolly (fmul w.m_dollySpeed deltaTime) w.m_camera }
  let w := { w with m_camera := truck (fmul w.m_truckSpeed deltaTime) w.m_camera }
  let w := { w with m_camera := pan (fmul w.m_panSpeed deltaTime) w.m_camera }
  w

/-! ## `OpenGLWindow::loadModelFromFile` -/

/-- The exceptions the loader can leave with: `abcg::Exception::Runtime` with
its message, and the `std::out_of_range` of `std::vector::at`. -/
inductive Exception where
  | Runtime (msg : String)
  | out_of_range
  deriving DecidableEq

/-- A `tinyobj::index_t`. -/
structure index_t where
  vertex_index : Int
  normal_index : Int
  texcoord_index : Int
  deriving DecidableEq

/-- The part of `tinyobj::mesh_t` the loader reads. -/
structure mesh_t where
  indices : List index_t

/-- The part of `tinyobj::shape_t` the loader reads. -/
structure shape_t where
  name : String
  mesh : mesh_t

/-- The part of `tinyobj::attrib_t` the loader reads. -/
structure attrib_t where
  vertices : List F32

/-- A `tinyobj::ObjReader` after `ParseFromFile(path)`: the call's return
value and what `Error()`, `Warning()`, `GetAttrib()` and `GetShapes()` give. -/
structure ObjReader where
  valid : Bool
  error : String
  warning : String
  attrib : attrib_t
  shapes : List shape_t

/-- The value of an `int` expression: two's complement wrap-around to 32 bits. -/
def toInt32 (z : Int) : Int := (z + 2 ^ 31) % 2 ^ 32 - 2 ^ 31

/-- The conversion of a `size_t` to `GLuint`. -/
def toGLuint (n : Nat) : Nat := n % 2 ^ 32

/-- The call `attrib.vertices.at(n)` with an `int` argument: a negative `n`
converts to a `size_t` beyond every vector size and is out of range. -/
def vectorAt (xs : List F32) (n : Int) : Except Exception F32 :=
  if 0 ≤ n then
    match xs[n.toNat]? with
    | some x => Except.ok x
    | none => Except.error Exception.out_of_range
  else Except.error Exception.out_of_range

/-- The operator `==` of `glm::vec3`: all three components compare equal. -/
def vec3.eq (a b : vec3) : Bool := F32.feq a.x b.x && F32.feq a.y b.y && F32.feq a.z b.z

/-- Modelled from the spec: the operator `==` of `Vertex` (openglwindow.hpp,
not among the sources) is "exact position equality". -/
def Vertex.eq (a b : Vertex) : Bool := vec3.eq a.position b.position

/-- The specialization `std::hash<Vertex>`; `hvec3` is `std::hash<glm::vec3>`. -/
def hashVertex (hvec3 : vec3 → Nat) (vertex : Vertex) : Nat := hvec3 vertex.position

namespace unordered_map

/-- Whether the entry `e` is the one a lookup of the key `k` stops at: same
hash code and equal key. -/
def slot (hvec3 : vec3 → Nat) (k : Vertex) (e : Vertex × Nat) : Bool :=
  (hashVertex hvec3 e.1 == hashVertex hvec3 k) && Vertex.eq e.1 k

/-- The call `hash.count(k)`. -/
def count (hvec3 : vec3 → Nat) (m : List (Vertex × Nat)) (k : Vertex) : Nat :=
  if m.any (slot hvec3 k) then 1 else 0

/-- The expression `hash[k]` read as a value: the mapped value and the map,
into which a missing key is inserted with the value `0`. -/
def subscript (hvec3 : vec3 → Nat) (m : List (Vertex × Nat)) (k : Vertex) :
    Nat × List (Vertex × Nat) :=
  match m.find? (slot hvec3 k) with
  | some e => (e.2, m)
  | none => (0, m ++ [(k, 0)])

/-- The statement `hash[k] = x`. -/
def assign (hvec3 : vec3 → Nat) (m : List (Vertex × Nat)) (k : Vertex) (x : Nat) :
    List (Vertex × Nat) :=
  if m.any (slot hvec3 k) then m.map (fun e => if slot hvec3 k e then (e.1, x) else e)
  else m ++ [(k, x)]

end unordered_map

/-- The local `hash` and the members `m_vertices`, `m_indices` during the load. -/
structure LoadState where
  hash : List (Vertex × Nat)
  m_vertices : List Vertex
  m_indices : List Nat

/-- Lines 160 to 166: the vertex read for one mesh index. -/
def readVertex (attrib : attrib_t) (index : index_t) : Except Exception Vertex :=
  let startIndex := toInt32 (3 * index.vertex_index)
  match vectorAt attrib.vertices (toInt32 (startIndex + 0)) with
  | Except.error e => Except.error e
  | Except.ok vx =>
    match vectorAt attrib.vertices (toInt32 (startIndex + 1)) with
    | Except.error e => Except.error e
    | Except.ok vy =>
      match vectorAt attrib.vertices (toInt32 (startIndex + 2)) with
      | Except.error e => Except.error e
      | Except.ok vz => Except.ok { position := ⟨vx, vy, vz⟩ }

/-- Lines 168 to 176: the vertex is given a slot unless the map has it, and
its mapped value is appended to the indices. -/
def insertVertex (hvec3 : vec3 → Nat) (st : LoadState) (vertex : Vertex) : LoadState :=
  let st :=
    if unordered_map.count hvec3 st.hash vertex = 0 then
      { hash := unordered_map.assign hvec3 st.hash vertex (toGLuint st.m_vertices.length)
        m_vertices := st.m_vertices ++ [vertex]
        m_indices := st.m_indices }
    else st
  let r := unordered_map.subscript hvec3 st.hash vertex
  { hash := r.2, m_vertices := st.m_vertices, m_indices := st.m_indices ++ [r.1] }

/-- The loop over the indices of one mesh. -/
def loadIndices (hvec3 : vec3 → Nat) (attrib : attrib_t) :
    List index_t → LoadState → Except Exception LoadState
  | [], st => Except.ok st
  | index :: rest, st =>
    match readVertex attrib index with
    | Except.error e => Except.error e
    | Except.ok vertex => loadIndices hvec3 attrib rest (insertVertex hvec3 st vertex)

/-- The loop over the shapes. -/
def loadShapes (hvec3 : vec3 → Nat) (attrib : attrib_t) :
    List shape_t → LoadState → Except Exception LoadState
  | [], st => Except.ok st
  | shape :: rest, st =>
    match loadIndices hvec3 attrib shape.mesh.indices st with
    | Except.error e => Except.error e
    | Except.ok st => loadShapes hvec3 attrib rest st

/-- The body of `OpenGLWindow::loadModelFromFile`, given the reader after
`ParseFromFile(path)`.  The result is the window and the text printed. -/
def loadModelFromFile (hvec3 : vec3 → Nat) (path : String) (reader : ObjReader)
    (w : OpenGLWindow) : Except Exception (OpenGLWindow × List String) :=
  if reader.valid = false then
    if reader.error ≠ "" then
      Except.error (Exception.Runtime
        ("Failed to load model " ++ path ++ " (" ++ reader.error ++ ")"))
    else
      Except.error (Exception.Runtime ("Failed to load model " ++ path))
  else
    let printed := if reader.warning ≠ "" then ["Warning: " ++ reader.warning ++ "\n"] else []
    let w := { w with m_vertices := [], m_indices := [] }
    match loadShapes hvec3 reader.attrib reader.shapes
        { hash := [], m_vertices := w.m_vertices, m_indices := w.m_indices } with
    | Except.error e => Except.error e
    | Except.ok st =>
      Except.ok ({ w with m_vertices := st.m_vertices, m_indices := st.m_indices }, printed)

/-! ## Vocabulary of the mesh properties -/

/-- The mesh indices of all shapes, shapes in order, indices in order. -/
def meshIndices (shapes : List shape_t) : List index_t :=
  shapes.flatMap (fun shape => shape.mesh.indices)

/-- The mesh index addresses a full position triple of `attrib.vertices`, at
offsets an `int` can hold. -/
def addressesTriple (attrib : attrib_t) (index : index_t) : Bool :=
  decide (0 ≤ index.vertex_index) &&
  decide (3 * index.vertex_index + 2 < attrib.vertices.length) &&
  decide (3 * index.vertex_index + 2 < 2 ^ 31)

/-- The three consecutive values of `attrib.vertices` from offset `n` on. -/
def positionAt (attrib : attrib_t) (n : Nat) : Vertex :=
  { position := ⟨attrib.vertices.getD n F32.nan, attrib.vertices.getD (n + 1) F32.nan,
      attrib.vertices.getD (n + 2) F32.nan⟩ }

/-- The position a mesh index references. -/
def referencedPosition (attrib : attrib_t) (index : index_t) : Vertex :=
  positionAt attrib (3 * index.vertex_index).toNat

/-- The sequence of positions referenced by the mesh indices. -/
def referencedPositions (reader : ObjReader) : List Vertex :=
  (meshIndices reader.shapes).map (referencedPosition reader.attrib)

/-- The sequence `rest` with every occurrence removed that has an equal
position before it, in `rest` or in `earlier`. -/
def removeRepeats : List Vertex → List Vertex → List Vertex
  | _, [] => []
  | earlier, v :: rest =>
    if earlier.any (fun u => Vertex.eq u v) then removeRepeats (v :: earlier) rest
    else v :: removeRepeats (v :: earlier) rest

/-- Membership of a `float` in a finite set of values, by numeric equality. -/
def inValues (x : F32) (vals : List F32) : Bool := vals.any (fun v => F32.feq x v)

/-- The speed values `-1`, `0`, `1`. -/
def speedValues : List F32 := [F32.fin (-1), F32.fin 0, F32.fin 1]

/-- The angle-flag values `-1`, `0`, `0.5`, `1`. -/
def angleValues : List F32 := [F32.fin (-1), F32.fin 0, F32.fin (1 / 2), F32.fin 1]

/-- The invariant of one movement axis: the speed is zero, or it is `1` and a
key of the positive direction is held, or `-1` and a key of the negative one is. -/
def axisInv (d : F32) (pos neg : Bool) : Prop :=
  F32.feq d (F32.fin 0) = true ∨ (d = F32.fin 1 ∧ pos = true) ∨ (d = F32.fin (-1) ∧ neg = true)

/-- One step of keeping first occurrences: `v` is appended unless an equal
position is already kept. -/
def dedupStep (kept : List Vertex) (v : Vertex) : List Vertex :=
  if kept.any (fun u => Vertex.eq u v) then kept else kept ++ [v]

/-- The map and the vertex list hold the same keys, as far as lookups can tell. -/
def KeysAgree (hvec3 : vec3 → Nat) (st : LoadState) : Prop :=
  ∀ k, st.hash.any (unordered_map.slot hvec3 k) = st.m_vertices.any (fun u => Vertex.eq u k)

/-- Every mapped value is the slot of its key, every index written so far
points at a vertex equal to the position it was written for, and the vertices
are distinct members of `pool`. -/
def SlotsAgree (pool : List Vertex) (st : LoadState) (seen : List Vertex) : Prop :=
  (∀ e ∈ st.hash, st.m_vertices[e.2]? = some e.1) ∧
  List.Forall₂ (fun i r => ∃ u, st.m_vertices[i]? = some u ∧ Vertex.eq u r = true)
    st.m_indices seen ∧
  st.m_vertices.Nodup ∧ st.m_vertices ⊆ pool

/-- An index entry with only the position index set, as the parser gives for a
face line without normals and texture coordinates. -/
def positionOnly (vertex_index : Int) : index_t :=
  { vertex_index := vertex_index, normal_index := -1, texcoord_index := -1 }

/-- A parsed model of two triangles that share two of their corners: four
positions `(0,0,0)`, `(1,0,0)`, `(0,1,0)`, `(1,1,0)` and six mesh indices. -/
def quadReader : ObjReader where
  valid := true
  error := ""
  warning := ""
  attrib :=
    { vertices := [F32.fin 0, F32.fin 0, F32.fin 0, F32.fin 1, F32.fin 0, F32.fin 0,
        F32.fin 0, F32.fin 1, F32.fin 0, F32.fin 1, F32.fin 1, F32.fin 0] }
  shapes :=
    [{ name := "first", mesh := { indices := [positionOnly 0, positionOnly 1, positionOnly 2] } },
     { name := "second", mesh := { indices := [positionOnly 2, positionOnly 1, positionOnly 3] } }]

/-- A parsed model whose only face refers to positions the file never gives:
the parser accepts it (with a warning) and `attrib.vertices` is empty. -/
def danglingReader : ObjReader where
  valid := true
  error := ""
  warning := "Vertex indices out of bounds (line 1.)"
  attrib := { vertices := [] }
  shapes :=
    [{ name := "", mesh := { indices := [positionOnly 0, positionOnly 1, positionOnly 2] } }]

/-- A reader after a failed parse with the error text `err`. -/
def failedReader (err : String) : ObjReader where
  valid := false
  error := err
  warning := ""
  attrib := { vertices := [] }
  shapes := []

/-- A hash of positions that gives equal positions equal codes. -/
def sampleHash : vec3 → Nat := fun _ => 0

/-! ## Properties of the input handler -/

theorem inValues_speed_neg : inValues (F32.fin (-1)) speedValues = true := by
  simp [inValues, speedValues, F32.feq, F32.key]

theorem inValues_speed_zero : inValues (F32.fin 0) speedValues = true := by
  simp [inValues, speedValues, F32.feq, F32.key]

theorem inValues_speed_one : inValues (F32.fin 1) speedValues = true := by
  simp [inValues, speedValues, F32.feq, F32.key]

theorem inValues_angle_neg : inValues (F32.fin (-1)) angleValues = true := by
  simp [inValues, angleValues, F32.feq, F32.key]

theorem inValues_angle_zero : inValues (F32.fin 0) angleValues = true := by
  simp [inValues, angleValues, F32.feq, F32.key]

theorem inValues_angle_half : inValues (F32.fin (1 / 2)) angleValues = true := by
  simp [inValues, angleValues, F32.feq, F32.key]

theorem inValues_angle_inv : inValues (F32.fin 2⁻¹) angleValues = true := by
  simp [inValues, angleValues, F32.feq, F32.key]

theorem inValues_angle_one : inValues (F32.fin 1) angleValues = true := by
  simp [inValues, angleValues, F32.feq, F32.key]

/-- C4: one call of `handleEvent` keeps the three speeds within the values
`-1`, `0`, `1` and the angle flag within `-1`, `0`, `0.5`, `1`. -/
theorem handleEvent_preserves_value_sets (ev : SDL_Event) (w : OpenGLWindow)
    (hd : inValues w.m_dollySpeed speedValues = true)
    (hp : inValues w.m_panSpeed speedValues = true)
    (ht : inValues w.m_truckSpeed speedValues = true)
    (ha : inValues w.m_angulo angleValues = true) :
    inValues (handleEvent ev w).m_dollySpeed speedValues = true ∧
    inValues (handleEvent ev w).m_panSpeed speedValues = true ∧
    inValues (handleEvent ev w).m_truckSpeed speedValues = true ∧
    inValues (handleEvent ev w).m_angulo angleValues = true := by
  obtain ⟨ty, sym, btn⟩ := ev
  cases ty <;> cases sym <;>
    simp [handleEvent, hd, hp, ht, ha, inValues_speed_neg, inValues_speed_zero,
      inValues_speed_one, inValues_angle_neg, inValues_angle_zero, inValues_angle_half,
      inValues_angle_inv, inValues_angle_one] <;>
    (try split_ifs) <;>
    simp [hd, hp, ht, ha, inValues_speed_neg, inValues_speed_zero,
      inValues_speed_one, inValues_angle_neg, inValues_angle_zero, inValues_angle_half,
      inValues_angle_inv, inValues_angle_one]

/-- C4 at the idle window and a key-down of W. -/
theorem handleEvent_preserves_value_sets_witness :
    inValues idleWindow.m_dollySpeed speedValues = true ∧
    inValues idleWindow.m_panSpeed speedValues = true ∧
    inValues idleWindow.m_truckSpeed speedValues = true ∧
    inValues idleWindow.m_angulo angleValues = true ∧
    inValues (handleEvent (keyEvent SDL_KEYDOWN SDLK_w) idleWindow).m_dollySpeed
      speedValues = true ∧
    inValues (handleEvent (keyEvent SDL_KEYDOWN SDLK_w) idleWindow).m_panSpeed
      speedValues = true ∧
    inValues (handleEvent (keyEvent SDL_KEYDOWN SDLK_w) idleWindow).m_truckSpeed
      speedValues = true ∧
    inValues (handleEvent (keyEvent SDL_KEYDOWN SDLK_w) idleWindow).m_angulo
      angleValues = true :=
  ⟨inValues_speed_zero, inValues_speed_zero, inValues_speed_zero, inValues_angle_half,
    handleEvent_preserves_value_sets (keyEvent SDL_KEYDOWN SDLK_w) idleWindow
      inValues_speed_zero inValues_speed_zero inValues_speed_zero inValues_angle_half⟩

theorem handleEvents_snoc (evs : List SDL_Event) (ev : SDL_Event) (w : OpenGLWindow) :
    handleEvents (evs ++ [ev]) w = handleEvent ev (handleEvents evs w) := by
  simp [handleEvents, List.foldl_append]

theorem keyHeld_snoc (k : Keycode) (evs : List SDL_Event) (ev : SDL_Event) :
    keyHeld k (evs ++ [ev]) =
      if ev.type = SDL_KEYDOWN ∧ ev.sym = k then true
      else if ev.type = SDL_KEYUP ∧ ev.sym = k then false
      else keyHeld k evs := by
  simp [keyHeld, List.foldl_append]

theorem F32.fgt_of_feq_zero {d : F32} (h : F32.feq d (F32.fin 0) = true) :
    F32.fgt d (F32.fin 0) = false := by
  cases d <;> simp_all [F32.feq, F32.fgt, F32.flt, F32.key]

theorem F32.flt_of_feq_zero {d : F32} (h : F32.feq d (F32.fin 0) = true) :
    F32.flt d (F32.fin 0) = false := by
  cases d <;> simp_all [F32.feq, F32.fgt, F32.flt, F32.key]

theorem axisInv_gt {d : F32} {pos neg : Bool} (h : axisInv d pos neg)
    (hg : F32.fgt d (F32.fin 0) = true) : pos = true := by
  rcases h with h | ⟨_, h⟩ | ⟨h, _⟩
  · rw [F32.fgt_of_feq_zero h] at hg; cases hg
  · exact h
  · subst h; exact absurd hg (by simp [F32.fgt, F32.flt, F32.key])

theorem axisInv_lt {d : F32} {pos neg : Bool} (h : axisInv d pos neg)
    (hl : F32.flt d (F32.fin 0) = true) : neg = true := by
  rcases h with h | ⟨h, _⟩ | ⟨_, h⟩
  · rw [F32.flt_of_feq_zero h] at hl; cases hl
  · subst h; exact absurd hl (by simp [F32.fgt, F32.flt, F32.key])
  · exact h

theorem axisInv_zero {d : F32} {pos neg : Bool} (h : axisInv d pos neg)
    (hp : pos = false) (hn : neg = false) : F32.feq d (F32.fin 0) = true := by
  rcases h with h | ⟨_, h⟩ | ⟨_, h⟩
  · exact h
  · simp [hp] at h
  · simp [hn] at h

theorem F32.one_gt : F32.fgt (F32.fin 1) (F32.fin 0) = true := by simp [F32.fgt, F32.flt, F32.key]
theorem F32.one_lt : F32.flt (F32.fin 1) (F32.fin 0) = false := by simp [F32.fgt, F32.flt, F32.key]
theorem F32.neg_gt : F32.fgt (F32.fin (-1)) (F32.fin 0) = false := by simp [F32.fgt, F32.flt, F32.key]
theorem F32.neg_lt : F32.flt (F32.fin (-1)) (F32.fin 0) = true := by simp [F32.fgt, F32.flt, F32.key]
theorem F32.zero_feq : F32.feq (F32.fin 0) (F32.fin 0) = true := by simp [F32.feq, F32.key]

theorem dolly_step (ev : SDL_Event) (w : OpenGLWindow) (evs : List SDL_Event)
    (h : axisInv w.m_dollySpeed (keyHeld SDLK_UP evs || keyHeld SDLK_w evs)
      (keyHeld SDLK_DOWN evs || keyHeld SDLK_s evs)) :
    axisInv (handleEvent ev w).m_dollySpeed
      (keyHeld SDLK_UP (evs ++ [ev]) || keyHeld SDLK_w (evs ++ [ev]))
      (keyHeld SDLK_DOWN (evs ++ [ev]) || keyHeld SDLK_s (evs ++ [ev])) := by
  obtain ⟨ty, sym, btn⟩ := ev
  simp only [keyHeld_snoc]
  rcases h with h | ⟨h, hk⟩ | ⟨h, hk⟩
  · have h1 := F32.fgt_of_feq_zero h
    have h2 := F32.flt_of_feq_zero h
    cases ty <;> cases sym <;>
      simp [handleEvent, axisInv, h, h1, h2, F32.one_gt, F32.one_lt, F32.neg_gt, F32.neg_lt, F32.zero_feq] <;>
      split_ifs <;> simp_all
  · cases ty <;> cases sym <;>
      simp [handleEvent, axisInv, h, hk, F32.one_gt, F32.one_lt, F32.neg_gt, F32.neg_lt, F32.zero_feq] <;>
      split_ifs <;> simp_all
  · cases ty <;> cases sym <;>
      simp [handleEvent, axisInv, h, hk, F32.one_gt, F32.one_lt, F32.neg_gt, F32.neg_lt, F32.zero_feq] <;>
      split_ifs <;> simp_all

theorem pan_step (ev : SDL_Event) (w : OpenGLWindow) (evs : List SDL_Event)
    (h : axisInv w.m_panSpeed (keyHeld SDLK_RIGHT evs || keyHeld SDLK_d evs)
      (keyHeld SDLK_LEFT evs || keyHeld SDLK_a evs)) :
    axisInv (handleEvent ev w).m_panSpeed
      (keyHeld SDLK_RIGHT (evs ++ [ev]) || keyHeld SDLK_d (evs ++ [ev]))
      (keyHeld SDLK_LEFT (evs ++ [ev]) || keyHeld SDLK_a (evs ++ [ev])) := by
  obtain ⟨ty, sym, btn⟩ := ev
  simp only [keyHeld_snoc]
  rcases h with h | ⟨h, hk⟩ | ⟨h, hk⟩
  · have h1 := F32.fgt_of_feq_zero h
    have h2 := F32.flt_of_feq_zero h
    cases ty <;> cases sym <;>
      simp [handleEvent, axisInv, h, h1, h2, F32.one_gt, F32.one_lt, F32.neg_gt, F32.neg_lt,
        F32.zero_feq] <;>
      split_ifs <;> simp_all
  · cases ty <;> cases sym <;>
      simp [handleEvent, axisInv, h, hk, F32.one_gt, F32.one_lt, F32.neg_gt, F32.neg_lt,
        F32.zero_feq] <;>
      split_ifs <;> simp_all
  · cases ty <;> cases sym <;>
      simp [handleEvent, axisInv, h, hk, F32.one_gt, F32.one_lt, F32.neg_gt, F32.neg_lt,
        F32.zero_feq] <;>
      split_ifs <;> simp_all

theorem truck_step (ev : SDL_Event) (w : OpenGLWindow) (evs : List SDL_Event)
    (h : axisInv w.m_truckSpeed (keyHeld SDLK_e evs) (keyHeld SDLK_q evs)) :
    axisInv (handleEvent ev w).m_truckSpeed
      (keyHeld SDLK_e (evs ++ [ev])) (keyHeld SDLK_q (evs ++ [ev])) := by
  obtain ⟨ty, sym, btn⟩ := ev
  simp only [keyHeld_snoc]
  rcases h with h | ⟨h, hk⟩ | ⟨h, hk⟩
  · have h1 := F32.fgt_of_feq_zero h
    have h2 := F32.flt_of_feq_zero h
    cases ty <;> cases sym <;>
      simp [handleEvent, axisInv, h, h1, h2, F32.one_gt, F32.one_lt, F32.neg_gt, F32.neg_lt,
        F32.zero_feq] <;>
      split_ifs <;> simp_all
  · cases ty <;> cases sym <;>
      simp [handleEvent, axisInv, h, hk, F32.one_gt, F32.one_lt, F32.neg_gt, F32.neg_lt,
        F32.zero_feq] <;>
      split_ifs <;> simp_all
  · cases ty <;> cases sym <;>
      simp [handleEvent, axisInv, h, hk, F32.one_gt, F32.one_lt, F32.neg_gt, F32.neg_lt,
        F32.zero_feq] <;>
      split_ifs <;> simp_all

theorem axes_invariant (evs : List SDL_Event) (w : OpenGLWindow)
    (hd : F32.feq w.m_dollySpeed (F32.fin 0) = true)
    (hp : F32.feq w.m_panSpeed (F32.fin 0) = true)
    (ht : F32.feq w.m_truckSpeed (F32.fin 0) = true) :
    axisInv (handleEvents evs w).m_dollySpeed
        (keyHeld SDLK_UP evs || keyHeld SDLK_w evs)
        (keyHeld SDLK_DOWN evs || keyHeld SDLK_s evs) ∧
    axisInv (handleEvents evs w).m_panSpeed
        (keyHeld SDLK_RIGHT evs || keyHeld SDLK_d evs)
        (keyHeld SDLK_LEFT evs || keyHeld SDLK_a evs) ∧
    axisInv (handleEvents evs w).m_truckSpeed (keyHeld SDLK_e evs) (keyHeld SDLK_q evs) := by
  induction evs using List.reverseRecOn with
  | nil => exact ⟨Or.inl hd, Or.inl hp, Or.inl ht⟩
  | append_singleton evs ev ih =>
    rw [handleEvents_snoc]
    exact ⟨dolly_step ev _ evs ih.1, pan_step ev _ evs ih.2.1, truck_step ev _ evs ih.2.2⟩

/-- C9: along every event sequence started with the three speeds at zero and no
key held, a positive dolly speed has Up or W held and a negative one Down or S,
a positive pan speed has Right or D held and a negative one Left or A, a
positive truck speed has E held and a negative one Q; with no movement key held
the three speeds are zero. -/
theorem speeds_follow_held_keys (evs : List SDL_Event) (w : OpenGLWindow)
    (hd : F32.feq w.m_dollySpeed (F32.fin 0) = true)
    (hp : F32.feq w.m_panSpeed (F32.fin 0) = true)
    (ht : F32.feq w.m_truckSpeed (F32.fin 0) = true) :
    (F32.fgt (handleEvents evs w).m_dollySpeed (F32.fin 0) = true →
      keyHeld SDLK_UP evs = true ∨ keyHeld SDLK_w evs = true) ∧
    (F32.flt (handleEvents evs w).m_dollySpeed (F32.fin 0) = true →
      keyHeld SDLK_DOWN evs = true ∨ keyHeld SDLK_s evs = true) ∧
    (F32.fgt (handleEvents evs w).m_panSpeed (F32.fin 0) = true →
      keyHeld SDLK_RIGHT evs = true ∨ keyHeld SDLK_d evs = true) ∧
    (F32.flt (handleEvents evs w).m_panSpeed (F32.fin 0) = true →
      keyHeld SDLK_LEFT evs = true ∨ keyHeld SDLK_a evs = true) ∧
    (F32.fgt (handleEvents evs w).m_truckSpeed (F32.fin 0) = true →
      keyHeld SDLK_e evs = true) ∧
    (F32.flt (handleEvents evs w).m_truckSpeed (F32.fin 0) = true →
      keyHeld SDLK_q evs = true) ∧
    ((∀ k ∈ [SDLK_UP, SDLK_w, SDLK_DOWN, SDLK_s, SDLK_RIGHT, SDLK_d, SDLK_LEFT, SDLK_a,
        SDLK_e, SDLK_q], keyHeld k evs = false) →
      F32.feq (handleEvents evs w).m_dollySpeed (F32.fin 0) = true ∧
      F32.feq (handleEvents evs w).m_panSpeed (F32.fin 0) = true ∧
      F32.feq (handleEvents evs w).m_truckSpeed (F32.fin 0) = true) := by
  obtain ⟨h1, h2, h3⟩ := axes_invariant evs w hd hp ht
  refine ⟨fun h => ?_, fun h => ?_, fun h => ?_, fun h => ?_, fun h => axisInv_gt h3 h,
    fun h => axisInv_lt h3 h, fun h => ?_⟩
  · simpa using axisInv_gt h1 h
  · simpa using axisInv_lt h1 h
  · simpa using axisInv_gt h2 h
  · simpa using axisInv_lt h2 h
  · simp only [List.mem_cons, List.mem_singleton, forall_eq_or_imp, forall_eq] at h
    obtain ⟨a1, a2, a3, a4, a5, a6, a7, a8, a9, a10, -⟩ := h
    exact ⟨axisInv_zero h1 (by simp [a1, a2]) (by simp [a3, a4]),
      axisInv_zero h2 (by simp [a5, a6]) (by simp [a7, a8]), axisInv_zero h3 a9 a10⟩

/-- C9 at a concrete run: after W is pressed from the idle window the dolly
speed is positive, and W is held. -/
theorem speeds_follow_held_keys_witness :
    F32.feq idleWindow.m_dollySpeed (F32.fin 0) = true ∧
    F32.feq idleWindow.m_panSpeed (F32.fin 0) = true ∧
    F32.feq idleWindow.m_truckSpeed (F32.fin 0) = true ∧
    F32.fgt (handleEvents [(keyEvent SDL_KEYDOWN SDLK_w)] idleWindow).m_dollySpeed
      (F32.fin 0) = true ∧
    (keyHeld SDLK_UP [(keyEvent SDL_KEYDOWN SDLK_w)] = true ∨
      keyHeld SDLK_w [(keyEvent SDL_KEYDOWN SDLK_w)] = true) :=
  ⟨by decide, by decide, by decide, by decide,
    (speeds_follow_held_keys [(keyEvent SDL_KEYDOWN SDLK_w)] idleWindow
      (by decide) (by decide) (by decide)).1 (by decide)⟩

theorem handleEvent_angulo (ev : SDL_Event) (w : OpenGLWindow) :
    (handleEvent ev w).m_angulo =
      match angleAssigned ev with
      | some a => a
      | none => w.m_angulo := by
  obtain ⟨ty, sym, btn⟩ := ev
  cases ty <;> cases sym <;> cases btn <;> simp [handleEvent, angleAssigned] <;>
    split_ifs <;> rfl

theorem handleEvents_angulo (evs : List SDL_Event) (w : OpenGLWindow) :
    (handleEvents evs w).m_angulo = lastAngleAssigned w.m_angulo evs := by
  induction evs generalizing w with
  | nil => rfl
  | cons ev evs ih =>
    have h : handleEvents (ev :: evs) w = handleEvents evs (handleEvent ev w) := rfl
    rw [h, ih, handleEvent_angulo]
    cases hcase : angleAssigned ev <;> simp [lastAngleAssigned, hcase]

theorem lastAngleAssigned_append (init : F32) (xs ys : List SDL_Event) :
    lastAngleAssigned init (xs ++ ys) = lastAngleAssigned (lastAngleAssigned init xs) ys := by
  induction xs generalizing init with
  | nil => rfl
  | cons x xs ih =>
    simp only [List.cons_append, lastAngleAssigned]
    cases angleAssigned x with
    | none => exact ih init
    | some a => exact ih a

theorem lastAngleAssigned_of_none (init : F32) (ys : List SDL_Event)
    (h : ∀ x ∈ ys, angleAssigned x = none) : lastAngleAssigned init ys = init := by
  induction ys with
  | nil => rfl
  | cons y ys ih =>
    simp only [lastAngleAssigned, h y (List.mem_cons_self _ _)]
    exact ih (fun x hx => h x (List.mem_cons_of_mem _ hx))

/-- C5, as amended: after any event sequence the angle flag holds the value
stored by the most recent event that stores one (`0` for a Space key-down, `1`
for a left button-down, `-1` for a right button-down, `0.5` for the release of
either button), provided no Space key-up came after that event; and it holds
its initial value when no event stored one and no Space key-up occurred. -/
theorem angle_is_last_assigned (evs : List SDL_Event) (w : OpenGLWindow) :
    ((∀ x ∈ evs, angleAssigned x = none) →
      (∀ x ∈ evs, ¬ (x.type = SDL_KEYUP ∧ x.sym = SDLK_SPACE)) →
      (handleEvents evs w).m_angulo = w.m_angulo) ∧
    ∀ (earlier later : List SDL_Event) (ev : SDL_Event) (a : F32),
      evs = earlier ++ ev :: later → angleAssigned ev = some a →
      (∀ x ∈ later, angleAssigned x = none) →
      (∀ x ∈ later, ¬ (x.type = SDL_KEYUP ∧ x.sym = SDLK_SPACE)) →
      (handleEvents evs w).m_angulo = a := by
  refine ⟨fun hnone _ => ?_, ?_⟩
  · rw [handleEvents_angulo, lastAngleAssigned_of_none _ _ hnone]
  · rintro earlier later ev a rfl hev hlater -
    rw [handleEvents_angulo, lastAngleAssigned_append]
    simp only [lastAngleAssigned, hev]
    exact lastAngleAssigned_of_none _ _ hlater

/-- C5, as amended, at a concrete run: left button down, `W` down, from the idle
window; the flag is `1`. -/
theorem angle_is_last_assigned_witness :
    (handleEvents [mouseEvent SDL_MOUSEBUTTONDOWN SDL_BUTTON_LEFT, keyEvent SDL_KEYDOWN SDLK_w]
      idleWindow).m_angulo = F32.fin 1 :=
  (angle_is_last_assigned
    [mouseEvent SDL_MOUSEBUTTONDOWN SDL_BUTTON_LEFT, keyEvent SDL_KEYDOWN SDLK_w]
    idleWindow).2 [] [keyEvent SDL_KEYDOWN SDLK_w]
    (mouseEvent SDL_MOUSEBUTTONDOWN SDL_BUTTON_LEFT) (F32.fin 1) rfl rfl (by decide) (by decide)

/-- C5 fails as stated: from the idle window, after left button down, right
button down, right button up, only the left button is held and the flag is
`0.5`, not `1`. -/
theorem angle_encoding_fails_on_overlap :
    idleWindow.m_angulo = F32.fin (1 / 2) ∧
    buttonHeld SDL_BUTTON_LEFT overlappingButtons = true ∧
    buttonHeld SDL_BUTTON_RIGHT overlappingButtons = false ∧
    keyHeld SDLK_SPACE overlappingButtons = false ∧
    (handleEvents overlappingButtons idleWindow).m_angulo = F32.fin (1 / 2) ∧
    F32.feq (F32.fin (1 / 2)) (F32.fin 1) = false ∧
    ¬ angleEncodesHeld overlappingButtons idleWindow := by
  have hflag : (handleEvents overlappingButtons idleWindow).m_angulo = F32.fin (1 / 2) := rfl
  have hne : F32.feq (F32.fin (1 / 2)) (F32.fin 1) = false := by
    simp [F32.feq, F32.key]
  refine ⟨rfl, rfl, rfl, rfl, hflag, hne, ?_⟩
  intro h
  have h1 := h.2.1 ⟨rfl, rfl, rfl⟩
  rw [hflag, hne] at h1
  cases h1


/-! ## Properties of the per-frame update and of the mesh load -/

theorem toInt32_of_range {z : Int} (h0 : 0 ≤ z) (h1 : z < 2 ^ 31) : toInt32 z = z := by
  unfold toInt32
  omega

theorem vectorAt_of_lt (xs : List F32) {n : Int} (h0 : 0 ≤ n) (h1 : n < xs.length) :
    vectorAt xs n = Except.ok (xs.getD n.toNat F32.nan) := by
  have h2 : n.toNat < xs.length := by omega
  simp [vectorAt, h0, List.getElem?_eq_getElem h2, List.getD_eq_getElem?_getD]

theorem vectorAt_error (xs : List F32) (n : Int) (e : Exception)
    (h : vectorAt xs n = Except.error e) : e = Exception.out_of_range := by
  unfold vectorAt at h
  split at h
  · split at h
    · cases h
    · cases h; rfl
  · cases h; rfl

theorem readVertex_of_addresses (attrib : attrib_t) (index : index_t)
    (h : addressesTriple attrib index = true) :
    readVertex attrib index = Except.ok (referencedPosition attrib index) := by
  simp only [addressesTriple, Bool.and_eq_true, decide_eq_true_eq] at h
  obtain ⟨⟨h0, h1⟩, h2⟩ := h
  have e0 : toInt32 (3 * index.vertex_index) = 3 * index.vertex_index :=
    toInt32_of_range (by omega) (by omega)
  have e1 : toInt32 (3 * index.vertex_index + 0) = 3 * index.vertex_index :=
    (toInt32_of_range (by omega) (by omega)).trans (by omega)
  have e2 : toInt32 (3 * index.vertex_index + 1) = 3 * index.vertex_index + 1 :=
    toInt32_of_range (by omega) (by omega)
  have e3 : toInt32 (3 * index.vertex_index + 2) = 3 * index.vertex_index + 2 :=
    toInt32_of_range (by omega) (by omega)
  have t1 : (3 * index.vertex_index + 1).toNat = (3 * index.vertex_index).toNat + 1 := by omega
  have t2 : (3 * index.vertex_index + 2).toNat = (3 * index.vertex_index).toNat + 2 := by omega
  simp only [readVertex, e0, e1, e2, e3]
  rw [vectorAt_of_lt _ (by omega) (by omega), vectorAt_of_lt _ (by omega) (by omega),
    vectorAt_of_lt _ (by omega) (by omega)]
  simp only [referencedPosition, positionAt, t1, t2]

theorem readVertex_error (attrib : attrib_t) (index : index_t) (e : Exception)
    (h : readVertex attrib index = Except.error e) : e = Exception.out_of_range := by
  unfold readVertex at h
  simp only at h
  split at h
  · next e1 h1 => cases h; exact vectorAt_error _ _ _ h1
  · split at h
    · next e1 h1 => cases h; exact vectorAt_error _ _ _ h1
    · split at h
      · next e1 h1 => cases h; exact vectorAt_error _ _ _ h1
      · cases h

theorem loadIndices_append (hvec3 : vec3 → Nat) (attrib : attrib_t)
    (xs ys : List index_t) (st : LoadState) :
    loadIndices hvec3 attrib (xs ++ ys) st =
      match loadIndices hvec3 attrib xs st with
      | Except.error e => Except.error e
      | Except.ok st1 => loadIndices hvec3 attrib ys st1 := by
  induction xs generalizing st with
  | nil => rfl
  | cons x xs ih =>
    simp only [List.cons_append, loadIndices]
    cases readVertex attrib x with
    | error e => rfl
    | ok v => exact ih _

theorem loadShapes_eq_loadIndices (hvec3 : vec3 → Nat) (attrib : attrib_t)
    (shapes : List shape_t) (st : LoadState) :
    loadShapes hvec3 attrib shapes st = loadIndices hvec3 attrib (meshIndices shapes) st := by
  induction shapes generalizing st with
  | nil => rfl
  | cons s rest ih =>
    simp only [loadShapes, meshIndices, List.flatMap_cons, loadIndices_append]
    cases loadIndices hvec3 attrib s.mesh.indices st with
    | error e => rfl
    | ok st1 => exact ih st1

theorem loadIndices_ok (hvec3 : vec3 → Nat) (attrib : attrib_t) (idxs : List index_t)
    (st : LoadState) (h : ∀ index ∈ idxs, addressesTriple attrib index = true) :
    loadIndices hvec3 attrib idxs st =
      Except.ok ((idxs.map (referencedPosition attrib)).foldl (insertVertex hvec3) st) := by
  induction idxs generalizing st with
  | nil => rfl
  | cons x xs ih =>
    simp only [loadIndices, readVertex_of_addresses attrib x (h x (List.mem_cons_self _ _)),
      List.map_cons, List.foldl_cons]
    exact ih _ (fun i hi => h i (List.mem_cons_of_mem _ hi))

theorem loadIndices_error (hvec3 : vec3 → Nat) (attrib : attrib_t) (idxs : List index_t)
    (st : LoadState) (e : Exception) (h : loadIndices hvec3 attrib idxs st = Except.error e) :
    e = Exception.out_of_range := by
  induction idxs generalizing st with
  | nil => cases h
  | cons x xs ih =>
    simp only [loadIndices] at h
    split at h
    · next e1 h1 => cases h; exact readVertex_error _ _ _ h1
    · exact ih _ h

theorem F32.feq_comm (a b : F32) : F32.feq a b = F32.feq b a := by
  unfold F32.feq
  cases ha : a.key <;> cases hb : b.key <;> simp [eq_comm]

theorem F32.feq_trans {a b c : F32} (h1 : F32.feq a b = true) (h2 : F32.feq b c = true) :
    F32.feq a c = true := by
  unfold F32.feq at *
  cases ha : a.key <;> cases hb : b.key <;> cases hc : c.key <;> simp_all

theorem vec3_eq_comm (a b : vec3) : vec3.eq a b = vec3.eq b a := by
  simp [vec3.eq, F32.feq_comm a.x, F32.feq_comm a.y, F32.feq_comm a.z]

theorem vec3_eq_trans {a b c : vec3} (h1 : vec3.eq a b = true) (h2 : vec3.eq b c = true) :
    vec3.eq a c = true := by
  simp only [vec3.eq, Bool.and_eq_true] at *
  exact ⟨⟨F32.feq_trans h1.1.1 h2.1.1, F32.feq_trans h1.1.2 h2.1.2⟩, F32.feq_trans h1.2 h2.2⟩

/-- The key comparison is symmetric: it does not matter which of the stored and
the searched key is its left operand. -/
theorem Vertex_eq_comm (a b : Vertex) : Vertex.eq a b = Vertex.eq b a :=
  vec3_eq_comm _ _

theorem Vertex_eq_trans {a b c : Vertex} (h1 : Vertex.eq a b = true)
    (h2 : Vertex.eq b c = true) : Vertex.eq a c = true :=
  vec3_eq_trans h1 h2

theorem unordered_map.slot_self (hvec3 : vec3 → Nat) (v : Vertex) (n : Nat) :
    unordered_map.slot hvec3 v (v, n) = Vertex.eq v v := by
  simp [unordered_map.slot]

theorem find?_none_of_any_false {α : Type} (p : α → Bool) (l : List α)
    (h : l.any p = false) : l.find? p = none := by
  rw [List.find?_eq_none]
  intro x hx hp
  have : l.any p = true := List.any_eq_true.mpr ⟨x, hx, hp⟩
  rw [h] at this
  cases this

/-- The loop body when the map has the key: the mapped value is appended. -/
theorem insertVertex_present (hvec3 : vec3 → Nat) (st : LoadState) (v : Vertex)
    (hc : st.hash.any (unordered_map.slot hvec3 v) = true) :
    ∃ e ∈ st.hash, unordered_map.slot hvec3 v e = true ∧
      insertVertex hvec3 st v =
        { hash := st.hash, m_vertices := st.m_vertices, m_indices := st.m_indices ++ [e.2] } := by
  have hcount : unordered_map.count hvec3 st.hash v ≠ 0 := by simp [unordered_map.count, hc]
  cases hf : st.hash.find? (unordered_map.slot hvec3 v) with
  | none =>
    rw [List.find?_eq_none] at hf
    obtain ⟨e, he, hs⟩ := List.any_eq_true.mp hc
    exact absurd hs (hf e he)
  | some e =>
    refine ⟨e, List.mem_of_find?_eq_some hf, List.find?_some hf, ?_⟩
    simp [insertVertex, hcount, unordered_map.subscript, hf]

/-- The loop body when the map lacks the key and the key equals itself: the
vertex gets the next slot, and the index is that slot's number as a `GLuint`. -/
theorem insertVertex_absent_refl (hvec3 : vec3 → Nat) (st : LoadState) (v : Vertex)
    (hc : st.hash.any (unordered_map.slot hvec3 v) = false) (hv : Vertex.eq v v = true) :
    insertVertex hvec3 st v =
      { hash := st.hash ++ [(v, toGLuint st.m_vertices.length)]
        m_vertices := st.m_vertices ++ [v]
        m_indices := st.m_indices ++ [toGLuint st.m_vertices.length] } := by
  have hcount : unordered_map.count hvec3 st.hash v = 0 := by simp [unordered_map.count, hc]
  have hf : (st.hash ++ [(v, toGLuint st.m_vertices.length)]).find?
      (unordered_map.slot hvec3 v) = some (v, toGLuint st.m_vertices.length) := by
    rw [List.find?_append, find?_none_of_any_false _ _ hc]
    simp [List.find?, unordered_map.slot_self, hv]
  simp [insertVertex, hcount, unordered_map.assign, hc, unordered_map.subscript, hf]

/-- The loop body when the key does not equal itself (a NaN component): the
vertex gets the next slot, a second entry is made by the read, and the index
is `0`. -/
theorem insertVertex_absent_irrefl (hvec3 : vec3 → Nat) (st : LoadState) (v : Vertex)
    (hc : st.hash.any (unordered_map.slot hvec3 v) = false) (hv : Vertex.eq v v = false) :
    insertVertex hvec3 st v =
      { hash := st.hash ++ [(v, toGLuint st.m_vertices.length)] ++ [(v, 0)]
        m_vertices := st.m_vertices ++ [v]
        m_indices := st.m_indices ++ [0] } := by
  have hcount : unordered_map.count hvec3 st.hash v = 0 := by simp [unordered_map.count, hc]
  have hf : (st.hash ++ [(v, toGLuint st.m_vertices.length)]).find?
      (unordered_map.slot hvec3 v) = none := by
    rw [List.find?_append, find?_none_of_any_false _ _ hc]
    simp [List.find?, unordered_map.slot_self, hv]
  simp [insertVertex, hcount, unordered_map.assign, hc, unordered_map.subscript, hf]

/-- The state invariant behind C1: mapped values and indices are below the
vertex count. -/
theorem insertVertex_bounds (hvec3 : vec3 → Nat) (st : LoadState) (v : Vertex)
    (hh : ∀ e ∈ st.hash, e.2 < st.m_vertices.length)
    (hi : ∀ i ∈ st.m_indices, i < st.m_vertices.length) :
    (∀ e ∈ (insertVertex hvec3 st v).hash, e.2 < (insertVertex hvec3 st v).m_vertices.length) ∧
    (∀ i ∈ (insertVertex hvec3 st v).m_indices,
      i < (insertVertex hvec3 st v).m_vertices.length) := by
  have hlen : toGLuint st.m_vertices.length < st.m_vertices.length + 1 :=
    Nat.lt_succ_of_le (Nat.mod_le _ _)
  cases hc : st.hash.any (unordered_map.slot hvec3 v) with
  | true =>
    obtain ⟨e, he, -, heq⟩ := insertVertex_present hvec3 st v hc
    rw [heq]
    refine ⟨hh, ?_⟩
    intro i hi2
    simp only [List.mem_append, List.mem_singleton] at hi2
    rcases hi2 with hi2 | hi2
    · exact hi i hi2
    · subst hi2; exact hh e he
  | false =>
    cases hv : Vertex.eq v v with
    | true =>
      rw [insertVertex_absent_refl hvec3 st v hc hv]
      simp only [List.mem_append, List.mem_singleton, List.length_append, List.length_singleton]
      refine ⟨?_, ?_⟩
      · rintro e (he | he)
        · exact Nat.lt_succ_of_lt (hh e he)
        · subst he; exact hlen
      · rintro i (hi2 | hi2)
        · exact Nat.lt_succ_of_lt (hi i hi2)
        · subst hi2; exact hlen
    | false =>
      rw [insertVertex_absent_irrefl hvec3 st v hc hv]
      simp only [List.mem_append, List.mem_singleton, List.length_append, List.length_singleton]
      refine ⟨?_, ?_⟩
      · rintro e ((he | he) | he)
        · exact Nat.lt_succ_of_lt (hh e he)
        · subst he; exact hlen
        · subst he; exact Nat.succ_pos _
      · rintro i (hi2 | hi2)
        · exact Nat.lt_succ_of_lt (hi i hi2)
        · subst hi2; exact Nat.succ_pos _

theorem unordered_map.slot_eq (hvec3 : vec3 → Nat)
    (hresp : ∀ a b, vec3.eq a b = true → hvec3 a = hvec3 b) (k : Vertex) (e : Vertex × Nat) :
    unordered_map.slot hvec3 k e = Vertex.eq e.1 k := by
  unfold unordered_map.slot hashVertex
  cases h : Vertex.eq e.1 k with
  | false => simp
  | true => simp [hresp _ _ h]

theorem insertVertex_keysAgree (hvec3 : vec3 → Nat)
    (hresp : ∀ a b, vec3.eq a b = true → hvec3 a = hvec3 b) (st : LoadState) (v : Vertex)
    (h : KeysAgree hvec3 st) :
    KeysAgree hvec3 (insertVertex hvec3 st v) ∧
      (insertVertex hvec3 st v).m_vertices = dedupStep st.m_vertices v := by
  cases hc : st.hash.any (unordered_map.slot hvec3 v) with
  | true =>
    obtain ⟨e, he, -, heq⟩ := insertVertex_present hvec3 st v hc
    rw [heq]
    refine ⟨h, ?_⟩
    have : st.m_vertices.any (fun u => Vertex.eq u v) = true := by rw [← h v]; exact hc
    simp [dedupStep, this]
  | false =>
    have hV : st.m_vertices.any (fun u => Vertex.eq u v) = false := by rw [← h v]; exact hc
    cases hv : Vertex.eq v v with
    | true =>
      rw [insertVertex_absent_refl hvec3 st v hc hv]
      refine ⟨?_, by simp [dedupStep, hV]⟩
      intro k
      have := h k
      simp only [List.any_append, this, List.any_cons, List.any_nil, Bool.or_false,
        unordered_map.slot_eq hvec3 hresp]
    | false =>
      rw [insertVertex_absent_irrefl hvec3 st v hc hv]
      refine ⟨?_, by simp [dedupStep, hV]⟩
      intro k
      have := h k
      simp only [List.any_append, this, List.any_cons, List.any_nil, Bool.or_false,
        unordered_map.slot_eq hvec3 hresp, Bool.or_assoc, Bool.or_self]

theorem foldl_insertVertex_keysAgree (hvec3 : vec3 → Nat)
    (hresp : ∀ a b, vec3.eq a b = true → hvec3 a = hvec3 b) (vs : List Vertex)
    (st : LoadState) (h : KeysAgree hvec3 st) :
    KeysAgree hvec3 (vs.foldl (insertVertex hvec3) st) ∧
      (vs.foldl (insertVertex hvec3) st).m_vertices = vs.foldl dedupStep st.m_vertices := by
  induction vs generalizing st with
  | nil => exact ⟨h, rfl⟩
  | cons v vs ih =>
    obtain ⟨h1, h2⟩ := insertVertex_keysAgree hvec3 hresp st v h
    obtain ⟨h3, h4⟩ := ih _ h1
    exact ⟨h3, by rw [List.foldl_cons, h4, h2]; rfl⟩

theorem foldl_dedupStep_eq (rest : List Vertex) (kept earlier : List Vertex)
    (h : ∀ k, kept.any (fun u => Vertex.eq u k) = earlier.any (fun u => Vertex.eq u k)) :
    rest.foldl dedupStep kept = kept ++ removeRepeats earlier rest := by
  induction rest generalizing kept earlier with
  | nil => simp [removeRepeats]
  | cons v rest ih =>
    rw [List.foldl_cons]
    cases hk : kept.any (fun u => Vertex.eq u v) with
    | true =>
      have he : earlier.any (fun u => Vertex.eq u v) = true := by rw [← h v]; exact hk
      have hstep : dedupStep kept v = kept := by simp [dedupStep, hk]
      rw [hstep, removeRepeats, if_pos he]
      apply ih
      intro k
      rw [List.any_cons, h k]
      cases hvk : Vertex.eq v k with
      | false => simp
      | true =>
        obtain ⟨u, hu, huv⟩ := List.any_eq_true.mp he
        have : earlier.any (fun u => Vertex.eq u k) = true :=
          List.any_eq_true.mpr ⟨u, hu, Vertex_eq_trans huv hvk⟩
        simp [this]
    | false =>
      have he : earlier.any (fun u => Vertex.eq u v) = false := by rw [← h v]; exact hk
      have hstep : dedupStep kept v = kept ++ [v] := by simp [dedupStep, hk]
      rw [hstep, removeRepeats, if_neg (by simp [he]), ih (kept ++ [v]) (v :: earlier)]
      · simp
      · intro k
        simp only [List.any_append, List.any_cons, List.any_nil, Bool.or_false, h k]
        exact Bool.or_comm _ _

theorem mem_removeRepeats {x : Vertex} {earlier rest : List Vertex}
    (h : x ∈ removeRepeats earlier rest) :
    x ∈ rest ∧ ∀ u ∈ earlier, Vertex.eq u x = false := by
  induction rest generalizing earlier with
  | nil => simp [removeRepeats] at h
  | cons v rest ih =>
    rw [removeRepeats] at h
    split at h
    · obtain ⟨h1, h2⟩ := ih h
      exact ⟨List.mem_cons_of_mem _ h1, fun u hu => h2 u (List.mem_cons_of_mem _ hu)⟩
    · next hany =>
      rcases List.mem_cons.mp h with h | h
      · subst h
        refine ⟨List.mem_cons_self _ _, fun u hu => ?_⟩
        cases hux : Vertex.eq u x with
        | false => rfl
        | true => exact absurd (List.any_eq_true.mpr ⟨u, hu, hux⟩) hany
      · obtain ⟨h1, h2⟩ := ih h
        exact ⟨List.mem_cons_of_mem _ h1, fun u hu => h2 u (List.mem_cons_of_mem _ hu)⟩

theorem pairwise_removeRepeats (earlier rest : List Vertex) :
    (removeRepeats earlier rest).Pairwise (fun a b => Vertex.eq a b = false) := by
  induction rest generalizing earlier with
  | nil => simp [removeRepeats]
  | cons v rest ih =>
    rw [removeRepeats]
    split
    · exact ih _
    · exact List.Pairwise.cons
        (fun x hx => (mem_removeRepeats hx).2 v (List.mem_cons_self _ _)) (ih _)

theorem sublist_removeRepeats (earlier rest : List Vertex) :
    (removeRepeats earlier rest).Sublist rest := by
  induction rest generalizing earlier with
  | nil => simp [removeRepeats]
  | cons v rest ih =>
    rw [removeRepeats]
    split
    · exact List.Sublist.cons _ (ih _)
    · exact List.Sublist.cons₂ _ (ih _)

theorem covered_removeRepeats (earlier rest : List Vertex) (r : Vertex) (hr : r ∈ rest) :
    r ∈ removeRepeats earlier rest ∨
      (∃ u ∈ removeRepeats earlier rest, Vertex.eq u r = true) ∨
      ∃ u ∈ earlier, Vertex.eq u r = true := by
  induction rest generalizing earlier with
  | nil => cases hr
  | cons v rest ih =>
    rw [removeRepeats]
    rcases List.mem_cons.mp hr with hr | hr
    · subst hr
      split
      · next hany =>
        obtain ⟨u, hu, hur⟩ := List.any_eq_true.mp hany
        exact Or.inr (Or.inr ⟨u, hu, hur⟩)
      · exact Or.inl (List.mem_cons_self _ _)
    · rcases ih (v :: earlier) hr with h | ⟨u, hu, hur⟩ | ⟨u, hu, hur⟩
      · split
        · exact Or.inl h
        · exact Or.inl (List.mem_cons_of_mem _ h)
      · split
        · exact Or.inr (Or.inl ⟨u, hu, hur⟩)
        · exact Or.inr (Or.inl ⟨u, List.mem_cons_of_mem _ hu, hur⟩)
      · rcases List.mem_cons.mp hu with huv | hu
        · subst huv
          split
          · next hany =>
            obtain ⟨u', hu', hu'v⟩ := List.any_eq_true.mp hany
            exact Or.inr (Or.inr ⟨u', hu', Vertex_eq_trans hu'v hur⟩)
          · exact Or.inr (Or.inl ⟨u, List.mem_cons_self _ _, hur⟩)
        · split
          · exact Or.inr (Or.inr ⟨u, hu, hur⟩)
          · exact Or.inr (Or.inr ⟨u, hu, hur⟩)

theorem getElem?_append_of_some {α : Type} (l m : List α) (i : Nat) (x : α)
    (h : l[i]? = some x) : (l ++ m)[i]? = some x := by
  have hi : i < l.length := by
    by_contra hn
    rw [List.getElem?_eq_none (by omega)] at h
    cases h
  rw [List.getElem?_append_left hi]
  exact h

theorem forall₂_snoc {α β : Type} {R : α → β → Prop} {l₁ : List α} {l₂ : List β} {a : α}
    {b : β} (h : List.Forall₂ R l₁ l₂) (hab : R a b) :
    List.Forall₂ R (l₁ ++ [a]) (l₂ ++ [b]) :=
  List.rel_append h (List.Forall₂.cons hab List.Forall₂.nil)

theorem forall₂_getElem? {α β : Type} {R : α → β → Prop} {l₁ : List α} {l₂ : List β}
    (h : List.Forall₂ R l₁ l₂) (k : Nat) (b : β) (hb : l₂[k]? = some b) :
    ∃ a, l₁[k]? = some a ∧ R a b := by
  induction h generalizing k with
  | nil => simp at hb
  | cons hab _ ih =>
    cases k with
    | zero =>
      simp only [List.getElem?_cons_zero, Option.some.injEq] at hb
      subst hb
      exact ⟨_, by simp, hab⟩
    | succ k =>
      simp only [List.getElem?_cons_succ] at hb ⊢
      exact ih k hb

theorem length_le_of_nodup_subset {l pool : List Vertex} (hn : l.Nodup) (hs : l ⊆ pool) :
    l.length ≤ pool.length :=
  (List.subperm_of_subset hn hs).length_le

theorem insertVertex_slotsAgree (hvec3 : vec3 → Nat)
    (hresp : ∀ a b, vec3.eq a b = true → hvec3 a = hvec3 b) (pool : List Vertex)
    (hpool : pool.length < 2 ^ 32) (st : LoadState) (seen : List Vertex) (v : Vertex)
    (hk : KeysAgree hvec3 st) (h : SlotsAgree pool st seen)
    (hv : Vertex.eq v v = true) (hvp : v ∈ pool) :
    SlotsAgree pool (insertVertex hvec3 st v) (seen ++ [v]) := by
  obtain ⟨h1, h2, h3, h4⟩ := h
  cases hc : st.hash.any (unordered_map.slot hvec3 v) with
  | true =>
    obtain ⟨e, he, hs, heq⟩ := insertVertex_present hvec3 st v hc
    rw [heq]
    rw [unordered_map.slot_eq hvec3 hresp] at hs
    exact ⟨h1, forall₂_snoc h2 ⟨e.1, h1 e he, hs⟩, h3, h4⟩
  | false =>
    rw [insertVertex_absent_refl hvec3 st v hc hv]
    have hnot : v ∉ st.m_vertices := by
      intro hmem
      have : st.m_vertices.any (fun u => Vertex.eq u v) = true :=
        List.any_eq_true.mpr ⟨v, hmem, hv⟩
      rw [← hk v, hc] at this
      cases this
    have hnd : (st.m_vertices ++ [v]).Nodup := by
      rw [List.nodup_append]
      refine ⟨h3, List.nodup_singleton v, ?_⟩
      intro a ha hb
      rw [List.mem_singleton] at hb
      subst hb
      exact hnot ha
    have hsub : st.m_vertices ++ [v] ⊆ pool := by
      intro a ha
      rcases List.mem_append.mp ha with ha | ha
      · exact h4 ha
      · rw [List.mem_singleton] at ha; subst ha; exact hvp
    have hlen : st.m_vertices.length < 2 ^ 32 := by
      have := length_le_of_nodup_subset hnd hsub
      simp only [List.length_append, List.length_singleton] at this
      omega
    have hg : toGLuint st.m_vertices.length = st.m_vertices.length := Nat.mod_eq_of_lt hlen
    rw [hg]
    have hnew : (st.m_vertices ++ [v])[st.m_vertices.length]? = some v := by simp
    refine ⟨?_, ?_, hnd, hsub⟩
    · intro e he
      rcases List.mem_append.mp he with he | he
      · exact getElem?_append_of_some _ _ _ _ (h1 e he)
      · rw [List.mem_singleton] at he; subst he; exact hnew
    · refine forall₂_snoc (h2.imp ?_) ⟨v, hnew, hv⟩
      rintro i r ⟨u, hu, hur⟩
      exact ⟨u, getElem?_append_of_some _ _ _ _ hu, hur⟩

theorem foldl_insertVertex_slotsAgree (hvec3 : vec3 → Nat)
    (hresp : ∀ a b, vec3.eq a b = true → hvec3 a = hvec3 b) (pool : List Vertex)
    (hpool : pool.length < 2 ^ 32) (vs : List Vertex) (st : LoadState) (seen : List Vertex)
    (hk : KeysAgree hvec3 st) (h : SlotsAgree pool st seen)
    (hv : ∀ v ∈ vs, Vertex.eq v v = true) (hvp : ∀ v ∈ vs, v ∈ pool) :
    SlotsAgree pool (vs.foldl (insertVertex hvec3) st) (seen ++ vs) := by
  induction vs generalizing st seen with
  | nil => simpa using h
  | cons v vs ih =>
    have h1 := insertVertex_slotsAgree hvec3 hresp pool hpool st seen v hk h
      (hv v (List.mem_cons_self _ _)) (hvp v (List.mem_cons_self _ _))
    have h2 := (insertVertex_keysAgree hvec3 hresp st v hk).1
    have := ih (insertVertex hvec3 st v) (seen ++ [v]) h2 h1
      (fun x hx => hv x (List.mem_cons_of_mem _ hx))
      (fun x hx => hvp x (List.mem_cons_of_mem _ hx))
    simpa using this

theorem referencedPosition_mem_pool (attrib : attrib_t) (index : index_t)
    (h : addressesTriple attrib index = true) :
    referencedPosition attrib index ∈ (List.range (2 ^ 31)).map (positionAt attrib) := by
  simp only [addressesTriple, Bool.and_eq_true, decide_eq_true_eq] at h
  obtain ⟨⟨h0, -⟩, h2⟩ := h
  refine List.mem_map.mpr ⟨(3 * index.vertex_index).toNat, List.mem_range.mpr ?_, rfl⟩
  omega

theorem loadModelFromFile_ok (hvec3 : vec3 → Nat) (path : String) (reader : ObjReader)
    (w : OpenGLWindow) (hvalid : reader.valid = true)
    (haddr : ∀ index ∈ meshIndices reader.shapes, addressesTriple reader.attrib index = true) :
    loadModelFromFile hvec3 path reader w =
      Except.ok
        ({ w with
            m_vertices := ((referencedPositions reader).foldl (insertVertex hvec3)
              { hash := [], m_vertices := [], m_indices := [] }).m_vertices
            m_indices := ((referencedPositions reader).foldl (insertVertex hvec3)
              { hash := [], m_vertices := [], m_indices := [] }).m_indices },
          if reader.warning ≠ "" then ["Warning: " ++ reader.warning ++ "\n"] else []) := by
  simp only [loadModelFromFile, hvalid, loadShapes_eq_loadIndices,
    loadIndices_ok hvec3 reader.attrib _ _ haddr, referencedPositions]
  rfl

theorem keysAgree_init (hvec3 : vec3 → Nat) :
    KeysAgree hvec3 { hash := [], m_vertices := [], m_indices := [] } := by
  intro k
  rfl

theorem loadIndices_bounds (hvec3 : vec3 → Nat) (attrib : attrib_t) (idxs : List index_t)
    (st st1 : LoadState) (h : loadIndices hvec3 attrib idxs st = Except.ok st1)
    (hh : ∀ e ∈ st.hash, e.2 < st.m_vertices.length)
    (hi : ∀ i ∈ st.m_indices, i < st.m_vertices.length) :
    ∀ i ∈ st1.m_indices, i < st1.m_vertices.length := by
  induction idxs generalizing st with
  | nil =>
    simp only [loadIndices, Except.ok.injEq] at h
    subst h
    exact hi
  | cons x xs ih =>
    simp only [loadIndices] at h
    split at h
    · cases h
    · next v hv =>
      obtain ⟨h1, h2⟩ := insertVertex_bounds hvec3 st v hh hi
      exact ih _ h h1 h2

/-- C1: whenever the load completes, every entry of `m_indices` is below the
length of `m_vertices`; and it completes for every parsed model whose mesh
indices all address a full position triple. -/
theorem indices_below_vertex_count (hvec3 : vec3 → Nat) (path : String) (reader : ObjReader)
    (w : OpenGLWindow) :
    (∀ w1 printed, loadModelFromFile hvec3 path reader w = Except.ok (w1, printed) →
      ∀ i ∈ w1.m_indices, i < w1.m_vertices.length) ∧
    (reader.valid = true →
      (∀ index ∈ meshIndices reader.shapes, addressesTriple reader.attrib index = true) →
      ∃ w1 printed, loadModelFromFile hvec3 path reader w = Except.ok (w1, printed)) := by
  refine ⟨?_, fun hvalid haddr => ⟨_, _, loadModelFromFile_ok hvec3 path reader w hvalid haddr⟩⟩
  intro w1 printed h
  unfold loadModelFromFile at h
  split at h
  · split at h <;> cases h
  · simp only [loadShapes_eq_loadIndices] at h
    split at h
    · cases h
    · next st hst =>
      simp only [Except.ok.injEq, Prod.mk.injEq] at h
      obtain ⟨rfl, -⟩ := h
      exact loadIndices_bounds hvec3 _ _ _ _ hst (by simp) (by simp)

/-- C1 at the two-triangle model: the load completes, with four vertices and
the indices `0, 1, 2, 2, 1, 3`. -/
theorem indices_below_vertex_count_witness :
    ∃ w1 printed, loadModelFromFile sampleHash "meowth.obj" quadReader idleWindow =
        Except.ok (w1, printed) ∧
      w1.m_vertices.length = 4 ∧ w1.m_indices = [0, 1, 2, 2, 1, 3] ∧
      ∀ i ∈ w1.m_indices, i < w1.m_vertices.length :=
  ⟨_, _, rfl, rfl, rfl,
    (indices_below_vertex_count sampleHash "meowth.obj" quadReader idleWindow).1 _ _ rfl⟩

/-- C2: for a parsed model whose mesh indices all address a full position
triple, and a position hash that gives equal positions equal codes, the load
succeeds and `m_vertices` is the sequence of referenced positions with every
occurrence after the first of an equal position removed; its entries are
pairwise unequal, in the order of the referenced positions, and every
referenced position is an entry or equal to one. -/
theorem vertices_are_first_occurrences (hvec3 : vec3 → Nat)
    (hresp : ∀ a b, vec3.eq a b = true → hvec3 a = hvec3 b)
    (path : String) (reader : ObjReader) (w : OpenGLWindow) (hvalid : reader.valid = true)
    (haddr : ∀ index ∈ meshIndices reader.shapes, addressesTriple reader.attrib index = true) :
    ∃ w1 printed, loadModelFromFile hvec3 path reader w = Except.ok (w1, printed) ∧
      w1.m_vertices = removeRepeats [] (referencedPositions reader) ∧
      w1.m_vertices.Pairwise (fun a b => Vertex.eq a b = false) ∧
      w1.m_vertices.Sublist (referencedPositions reader) ∧
      ∀ r ∈ referencedPositions reader,
        r ∈ w1.m_vertices ∨ ∃ u ∈ w1.m_vertices, Vertex.eq u r = true := by
  have hV : ((referencedPositions reader).foldl (insertVertex hvec3)
      { hash := [], m_vertices := [], m_indices := [] }).m_vertices =
      removeRepeats [] (referencedPositions reader) := by
    rw [(foldl_insertVertex_keysAgree hvec3 hresp _ _ (keysAgree_init hvec3)).2,
      foldl_dedupStep_eq _ [] [] (fun _ => rfl)]
    rfl
  refine ⟨_, _, loadModelFromFile_ok hvec3 path reader w hvalid haddr, hV, ?_, ?_, ?_⟩
  · simp only [hV]; exact pairwise_removeRepeats _ _
  · simp only [hV]; exact sublist_removeRepeats _ _
  · intro r hr
    simp only [hV]
    rcases covered_removeRepeats [] _ r hr with h | h | ⟨u, hu, -⟩
    · exact Or.inl h
    · exact Or.inr h
    · cases hu

/-- C2 at the two-triangle model: the six referenced positions give four
vertices. -/
theorem vertices_are_first_occurrences_witness :
    (∀ a b, vec3.eq a b = true → sampleHash a = sampleHash b) ∧
    quadReader.valid = true ∧
    (∀ index ∈ meshIndices quadReader.shapes,
      addressesTriple quadReader.attrib index = true) ∧
    (referencedPositions quadReader).length = 6 ∧
    (removeRepeats [] (referencedPositions quadReader)).length = 4 ∧
    ∃ w1 printed, loadModelFromFile sampleHash "meowth.obj" quadReader idleWindow =
        Except.ok (w1, printed) ∧
      w1.m_vertices = removeRepeats [] (referencedPositions quadReader) ∧
      w1.m_vertices.Pairwise (fun a b => Vertex.eq a b = false) ∧
      w1.m_vertices.Sublist (referencedPositions quadReader) ∧
      ∀ r ∈ referencedPositions quadReader,
        r ∈ w1.m_vertices ∨ ∃ u ∈ w1.m_vertices, Vertex.eq u r = true :=
  ⟨fun _ _ _ => rfl, rfl, by decide, by decide, by decide,
    vertices_are_first_occurrences sampleHash (fun _ _ _ => rfl) "meowth.obj" quadReader
      idleWindow rfl (by decide)⟩

/-- C10: for a parsed model whose mesh indices all address a full position
triple and whose referenced positions compare equal to themselves, and a
position hash that gives equal positions equal codes, the load succeeds,
`m_indices` has one entry per mesh index, the vertex at the `k`-th entry equals
the position the `k`-th mesh index references, and the buffers are the same
from every window the load starts in. -/
theorem indices_reconstruct_mesh (hvec3 : vec3 → Nat)
    (hresp : ∀ a b, vec3.eq a b = true → hvec3 a = hvec3 b)
    (path : String) (reader : ObjReader) (w w0 : OpenGLWindow) (hvalid : reader.valid = true)
    (haddr : ∀ index ∈ meshIndices reader.shapes, addressesTriple reader.attrib index = true)
    (hrefl : ∀ r ∈ referencedPositions reader, Vertex.eq r r = true) :
    ∃ w1 printed, loadModelFromFile hvec3 path reader w = Except.ok (w1, printed) ∧
      w1.m_indices.length = (meshIndices reader.shapes).length ∧
      (∀ (k : Nat) (r : Vertex), (referencedPositions reader)[k]? = some r →
        ∃ (i : Nat) (u : Vertex), w1.m_indices[k]? = some i ∧ w1.m_vertices[i]? = some u ∧
          Vertex.eq u r = true) ∧
      ∃ w2, loadModelFromFile hvec3 path reader w0 = Except.ok (w2, printed) ∧
        w2.m_vertices = w1.m_vertices ∧ w2.m_indices = w1.m_indices := by
  have hpool : ∀ v ∈ referencedPositions reader,
      v ∈ (List.range (2 ^ 31)).map (positionAt reader.attrib) := by
    intro v hv
    obtain ⟨index, hi, rfl⟩ := List.mem_map.mp hv
    exact referencedPosition_mem_pool _ _ (haddr index hi)
  have hS := foldl_insertVertex_slotsAgree hvec3 hresp
    ((List.range (2 ^ 31)).map (positionAt reader.attrib)) (by simp)
    (referencedPositions reader) { hash := [], m_vertices := [], m_indices := [] } []
    (keysAgree_init hvec3) ⟨by simp, List.Forall₂.nil, List.nodup_nil, by simp⟩ hrefl hpool
  obtain ⟨-, h2, -, -⟩ := hS
  rw [List.nil_append] at h2
  refine ⟨_, _, loadModelFromFile_ok hvec3 path reader w hvalid haddr, ?_, ?_,
    _, loadModelFromFile_ok hvec3 path reader w0 hvalid haddr, rfl, rfl⟩
  · rw [h2.length_eq]
    simp [referencedPositions]
  · intro k r hr
    obtain ⟨i, hi, u, hu, hur⟩ := forall₂_getElem? h2 k r hr
    exact ⟨i, u, hi, hu, hur⟩

/-- C10 at the two-triangle model. -/
theorem indices_reconstruct_mesh_witness :
    (∀ a b, vec3.eq a b = true → sampleHash a = sampleHash b) ∧
    quadReader.valid = true ∧
    (∀ index ∈ meshIndices quadReader.shapes,
      addressesTriple quadReader.attrib index = true) ∧
    (∀ r ∈ referencedPositions quadReader, Vertex.eq r r = true) ∧
    ∃ w1 printed, loadModelFromFile sampleHash "meowth.obj" quadReader idleWindow =
        Except.ok (w1, printed) ∧
      w1.m_indices.length = (meshIndices quadReader.shapes).length ∧
      (∀ (k : Nat) (r : Vertex), (referencedPositions quadReader)[k]? = some r →
        ∃ (i : Nat) (u : Vertex), w1.m_indices[k]? = some i ∧ w1.m_vertices[i]? = some u ∧
          Vertex.eq u r = true) ∧
      ∃ w2, loadModelFromFile sampleHash "meowth.obj" quadReader
          { idleWindow with m_indices := [7] } = Except.ok (w2, printed) ∧
        w2.m_vertices = w1.m_vertices ∧ w2.m_indices = w1.m_indices :=
  ⟨fun _ _ _ => rfl, rfl, by decide, by decide,
    indices_reconstruct_mesh sampleHash (fun _ _ _ => rfl) "meowth.obj" quadReader
      idleWindow { idleWindow with m_indices := [7] } rfl (by decide) (by decide)⟩

/-- C7 fails as stated: the parser accepts the model, and the load raises
`std::out_of_range` at the first position read. -/
theorem accepted_model_raises_out_of_range :
    danglingReader.valid = true ∧
    loadModelFromFile sampleHash "meowth.obj" danglingReader idleWindow =
      Except.error Exception.out_of_range := by
  exact ⟨rfl, rfl⟩

/-- C7, as amended: the load raises the `Runtime` error exactly when the parser
reports failure; an accepted model whose mesh indices all address a full
position triple is loaded without an error; and the only error an accepted
model can raise is the `out_of_range` of a position read. -/
theorem load_error_classes (hvec3 : vec3 → Nat) (path : String) (reader : ObjReader)
    (w : OpenGLWindow) :
    ((∃ msg, loadModelFromFile hvec3 path reader w = Except.error (Exception.Runtime msg)) ↔
      reader.valid = false) ∧
    (reader.valid = true →
      (∀ index ∈ meshIndices reader.shapes, addressesTriple reader.attrib index = true) →
      ∃ w1 printed, loadModelFromFile hvec3 path reader w = Except.ok (w1, printed)) ∧
    (reader.valid = true →
      ∀ e, loadModelFromFile hvec3 path reader w = Except.error e →
        e = Exception.out_of_range) := by
  have hacc : reader.valid = true →
      ∀ e, loadModelFromFile hvec3 path reader w = Except.error e →
        e = Exception.out_of_range := by
    intro hvalid e he
    unfold loadModelFromFile at he
    rw [if_neg (by simp [hvalid])] at he
    simp only [loadShapes_eq_loadIndices] at he
    split at he
    · next e1 h1 =>
      cases he
      exact loadIndices_error _ _ _ _ _ h1
    · cases he
  refine ⟨⟨?_, ?_⟩, ?_, hacc⟩
  · rintro ⟨msg, hmsg⟩
    cases hvalid : reader.valid with
    | false => rfl
    | true => cases hacc hvalid _ hmsg
  · intro hvalid
    by_cases herr : reader.error = ""
    · exact ⟨"Failed to load model " ++ path, by simp [loadModelFromFile, hvalid, herr]⟩
    · exact ⟨"Failed to load model " ++ path ++ " (" ++ reader.error ++ ")",
        by simp [loadModelFromFile, hvalid, herr]⟩
  · intro hvalid haddr
    exact ⟨_, _, loadModelFromFile_ok hvec3 path reader w hvalid haddr⟩

/-- C7, as amended, at the two-triangle model. -/
theorem load_error_classes_witness :
    ∃ w1 printed, loadModelFromFile sampleHash "meowth.obj" quadReader idleWindow =
      Except.ok (w1, printed) :=
  (load_error_classes sampleHash "meowth.obj" quadReader idleWindow).2.1 rfl (by decide)

/-- C8: after a failed parse the load raises the `Runtime` error; its message is
`Failed to load model <path> (<error>)` when the parser's error text is not
empty and `Failed to load model <path>` when it is; either way the message
contains the path. -/
theorem load_failure_message (hvec3 : vec3 → Nat) (path : String) (reader : ObjReader)
    (w : OpenGLWindow) (hvalid : reader.valid = false) :
    (reader.error ≠ "" →
      loadModelFromFile hvec3 path reader w = Except.error (Exception.Runtime
        ("Failed to load model " ++ path ++ " (" ++ reader.error ++ ")"))) ∧
    (reader.error = "" →
      loadModelFromFile hvec3 path reader w = Except.error (Exception.Runtime
        ("Failed to load model " ++ path))) ∧
    ∃ before after, loadModelFromFile hvec3 path reader w =
      Except.error (Exception.Runtime (before ++ path ++ after)) := by
  refine ⟨fun herr => ?_, fun herr => ?_, ?_⟩
  · simp only [loadModelFromFile, hvalid, if_true, ne_eq, herr, not_false_eq_true]
  · simp [loadModelFromFile, hvalid, herr]
  · by_cases herr : reader.error = ""
    · exact ⟨"Failed to load model ", "", by simp [loadModelFromFile, hvalid, herr]⟩
    · refine ⟨"Failed to load model ", " (" ++ reader.error ++ ")", ?_⟩
      simp only [loadModelFromFile, hvalid, if_true, ne_eq, herr, not_false_eq_true,
        String.append_assoc]

/-- C8 at a failed parse with the error text `no such file`. -/
theorem load_failure_message_witness :
    (failedReader "no such file").valid = false ∧
    loadModelFromFile sampleHash "meowth.obj" (failedReader "no such file") idleWindow =
      Except.error (Exception.Runtime "Failed to load model meowth.obj (no such file)") :=
  ⟨rfl, (load_failure_message sampleHash "meowth.obj" (failedReader "no such file") idleWindow
    rfl).1 (by decide)⟩

/-- C6: `update` copies the window's angle flag into the camera, then applies
`dolly`, `truck` and `pan`, in this order, with the window's dolly, truck and
pan speed times the delta time; the window's speeds and angle flag (and its
buffers) are as before. -/
theorem update_sequence (fmul : F32 → F32 → F32) (dolly truck pan : F32 → Camera → Camera)
    (deltaTime : F32) (w : OpenGLWindow) :
    (update fmul dolly truck pan deltaTime w).m_camera =
      pan (fmul w.m_panSpeed deltaTime)
        (truck (fmul w.m_truckSpeed deltaTime)
          (dolly (fmul w.m_dollySpeed deltaTime)
            { w.m_camera with angulo := w.m_angulo })) ∧
    (update fmul dolly truck pan deltaTime w).m_dollySpeed = w.m_dollySpeed ∧
    (update fmul dolly truck pan deltaTime w).m_truckSpeed = w.m_truckSpeed ∧
    (update fmul dolly truck pan deltaTime w).m_panSpeed = w.m_panSpeed ∧
    (update fmul dolly truck pan deltaTime w).m_angulo = w.m_angulo ∧
    (update fmul dolly truck pan deltaTime w).m_vertices = w.m_vertices ∧
    (update fmul dolly truck pan deltaTime w).m_indices = w.m_indices :=
  ⟨rfl, rfl, rfl, rfl, rfl, rfl, rfl⟩

end Meowth
